import Mathlib

/-!
Shallow embedding of the rule-routing core of `proxy-fork`
(crates/proxy-fork-core): the pattern matcher (`match_strategy.rs`),
addresses and the URI rewrite engine (`http_address.rs`), the statistics
counters (`proxy_manage_stats.rs`, feature `proxy_manage_stats` enabled),
and the proxy manager with its hybrid index and LRU cache
(`proxy_manage.rs`).

Rust `String` values are Lean `String`s (operated on char-wise; every slice
the code takes is at a character boundary because it is produced by
`starts_with`/`strip_prefix`-style operations).  The `http::Uri` type is
modelled by the four accessors the code uses: `scheme_str`, `host`,
`port_u16` and `path_and_query`.  `HashMap` is an association list with
replace-on-insert, `LruCache` a most-recent-first association list bounded
by its capacity, and the relaxed atomic counters are plain naturals
(single-threaded execution; no claim concerns overflow).  The compiled
regular expression stored in `PatternMatcher::Regex` comes from the
external `regex` crate and is abstracted as an arbitrary boolean function
on strings.
-/

/-! ### String helpers (Rust `str` operations used by the core) -/

/-- Rust `s.strip_prefix(c)` for a single character. -/
def stripLeadChar (c : Char) (s : String) : Option String :=
  match s.data with
  | [] => none
  | d :: rest => if d = c then some ⟨rest⟩ else none

/-- Rust `s.strip_suffix(c)` for a single character. -/
def stripTrailChar (c : Char) (s : String) : Option String :=
  match s.data.reverse with
  | [] => none
  | d :: rest => if d = c then some ⟨rest.reverse⟩ else none

/-- Rust `s.trim_end_matches(c)`: remove every trailing occurrence of `c`. -/
def trimTrailChar (c : Char) (s : String) : String :=
  ⟨(s.data.reverse.dropWhile (fun d => d = c)).reverse⟩

/-- Rust `v.starts_with(p)` for a string pattern (byte prefix). -/
def strStartsWith (v p : String) : Bool :=
  p.data.isPrefixOf v.data

/-- Rust `v.ends_with(p)` for a string pattern (byte suffix). -/
def strEndsWith (v p : String) : Bool :=
  p.data.isSuffixOf v.data

/-- Rust `s.starts_with(c)` for a character pattern. -/
def startsWithChar (s : String) (c : Char) : Bool :=
  match s.data with
  | [] => false
  | d :: _ => d = c

/-- Rust `s.ends_with(c)` for a character pattern. -/
def endsWithChar (s : String) (c : Char) : Bool :=
  match s.data.reverse with
  | [] => false
  | d :: _ => d = c

/-- Rust `s.contains(c)` for a character pattern. -/
def containsChar (s : String) (c : Char) : Bool :=
  s.data.any (fun d => d = c)

/-- Drop the first `n` characters (the code slices `&s[p.len()..]` where
`p` is a known prefix of `s`, so the byte offset is a char boundary). -/
def strDropLen (s : String) (n : Nat) : String :=
  ⟨s.data.drop n⟩

/-- Rust `char::to_ascii_lowercase`. -/
def asciiLowerChar (c : Char) : Char :=
  if 65 ≤ c.toNat ∧ c.toNat ≤ 90 then Char.ofNat (c.toNat + 32) else c

/-- Rust `str::to_ascii_lowercase`. -/
def asciiLower (s : String) : String :=
  ⟨s.data.map asciiLowerChar⟩

/-! ### `match_strategy.rs` -/

/-- `PatternMatcher` from `match_strategy.rs`.  The `Regex` variant keeps
the textual pattern and its compiled form; the compiled `regex::Regex`
matcher is abstracted as a boolean function. -/
inductive PatternMatcher where
  | Exact (pattern : String)
  | Wildcard (pattern : String)
  | Regex (pattern : String) (compiled : String → Bool)

/-- `PatternMatcher::matches` from `match_strategy.rs`. -/
def PatternMatcher.matches : PatternMatcher → String → Bool
  | .Exact pattern, value => value = pattern
  | .Wildcard pattern, value =>
      match stripLeadChar '*' pattern with
      | some suffix => strEndsWith value suffix
      | none =>
        match stripTrailChar '*' pattern with
        | some pre => strStartsWith value pre
        | none => value = pattern
  | .Regex _ compiled, value => compiled value

/-! ### `http_address.rs` -/

/-- `Protocol` from `http_address.rs` (the core enum has http and https). -/
inductive Protocol where
  | http
  | https
deriving DecidableEq

/-- Scheme string of a protocol, as produced in `to_uri_with_rewrite`. -/
def Protocol.schemeStr : Protocol → String
  | .http => "http"
  | .https => "https"

/-- `PathTransformMode` from `http_address.rs`. -/
inductive PathTransformMode where
  | preserve
  | prepend
  | replace
deriving DecidableEq

/-- `Address` from `http_address.rs`. -/
structure Address where
  protocol : Protocol
  host : String
  port : Option Nat
  path : Option String
  path_transform_mode : PathTransformMode
deriving DecidableEq

/-- The `http::Uri` values the code consumes, modelled by the four
accessors it uses: `scheme_str()`, `host()`, `port_u16()` and
`path_and_query()` (each `None` when absent). -/
structure Uri where
  scheme : Option String
  host : Option String
  port : Option Nat
  pathAndQuery : Option String
deriving DecidableEq

/-- `uri.to_string()`, used only as the LRU cache key. -/
def Uri.toStr (u : Uri) : String :=
  (match u.scheme with | some s => s ++ "://" | none => "") ++
  (match u.host with | some h => h | none => "") ++
  (match u.port with | some p => ":" ++ toString p | none => "") ++
  (match u.pathAndQuery with | some pq => pq | none => "")

/-- `Protocol::try_from(&Uri)`: default the missing scheme to `http`,
lowercase, and accept only `http`/`https`. -/
def Protocol.fromUri (u : Uri) : Option Protocol :=
  match asciiLower (u.scheme.getD "http") with
  | "http" => some .http
  | "https" => some .https
  | _ => none

/-- `Address::from_uri` from `http_address.rs`: fails when the protocol is
unknown or the host is missing. -/
def Address.from_uri (u : Uri) : Option Address :=
  match Protocol.fromUri u with
  | none => none
  | some protocol =>
    match u.host with
    | none => none
    | some host =>
      some { protocol := protocol
             host := host
             port := u.port
             path := u.pathAndQuery
             path_transform_mode := .preserve }

/-- `Address::to_uri_with_rewrite` from `http_address.rs`.  The produced
`Uri::builder()` components are returned directly (scheme and authority
are always built from the target address). -/
def Address.to_uri_with_rewrite (a : Address) (original_uri : Uri)
    (matched_pre : Option String) : Uri :=
  let original_path := original_uri.pathAndQuery.getD "/"
  let path_and_query :=
    match a.path_transform_mode with
    | .preserve => original_path
    | .prepend =>
      match a.path with
      | some pre =>
        let pre_clean := trimTrailChar '/' pre
        let original := if startsWithChar original_path '/' then original_path else "/"
        pre_clean ++ original
      | none => original_path
    | .replace =>
      match a.path, matched_pre with
      | some new_pre, some old_pre =>
        let old_pre_clean := trimTrailChar '/' (trimTrailChar '*' old_pre)
        if strStartsWith original_path old_pre_clean then
          let suffix := strDropLen original_path old_pre_clean.data.length
          trimTrailChar '/' new_pre ++ suffix
        else
          original_path
      | _, _ => original_path
  { scheme := some a.protocol.schemeStr
    host := some a.host
    port := a.port
    pathAndQuery := some path_and_query }

/-- `PatternType` from `proxy_manage.rs`. -/
structure PatternType where
  host : PatternMatcher
  path : Option PatternMatcher

/-- `AddressPattern` from `http_address.rs`. -/
structure AddressPattern where
  protocol : Protocol
  port : Option Nat
  pattern_type : PatternType

/-- `AddressPattern::matches` from `http_address.rs`. -/
def AddressPattern.matches (p : AddressPattern) (address : Address) : Bool :=
  if p.protocol ≠ address.protocol then false
  else if (match p.port with
           | some pattern_port => decide (address.port ≠ some pattern_port)
           | none => false) then false
  else if ¬ p.pattern_type.host.matches address.host then false
  else
    match p.pattern_type.path, address.path with
    | none, _ => true
    | some strategy, some addr_path => strategy.matches addr_path
    | some _, none => false

/-! ### `proxy_manage_stats.rs` (feature `proxy_manage_stats` enabled) -/

/-- `ProxyStats` counters (the atomics, read single-threadedly). -/
structure ProxyStats where
  cache_hits : Nat
  exact_hits : Nat
  pattern_hits : Nat
  misses : Nat
  total_lookups : Nat
deriving DecidableEq

def ProxyStats.zero : ProxyStats := ⟨0, 0, 0, 0, 0⟩

def ProxyStats.incTotal (s : ProxyStats) : ProxyStats :=
  { s with total_lookups := s.total_lookups + 1 }

def ProxyStats.incCache (s : ProxyStats) : ProxyStats :=
  { s with cache_hits := s.cache_hits + 1 }

def ProxyStats.incExact (s : ProxyStats) : ProxyStats :=
  { s with exact_hits := s.exact_hits + 1 }

def ProxyStats.incPattern (s : ProxyStats) : ProxyStats :=
  { s with pattern_hits := s.pattern_hits + 1 }

def ProxyStats.incMiss (s : ProxyStats) : ProxyStats :=
  { s with misses := s.misses + 1 }

/-! ### `proxy_manage.rs` -/

/-- `MatchResult` from `proxy_manage.rs`. -/
structure MatchResult where
  target : Address
  matched_path_prefix : Option String
deriving DecidableEq

/-- `ExactKey` from `proxy_manage.rs`. -/
structure ExactKey where
  protocol : Protocol
  host : String
  port : Option Nat
  path : Option String
deriving DecidableEq

/-- `ExactKey::from_address`. -/
def ExactKey.from_address (addr : Address) : ExactKey :=
  ⟨addr.protocol, addr.host, addr.port, addr.path⟩

/-- `HashMap<ExactKey, Address>` as an association list whose keys are
pairwise distinct; `insert` replaces the value of an existing key. -/
def mapInsert (k : ExactKey) (v : Address) (m : List (ExactKey × Address)) :
    List (ExactKey × Address) :=
  if m.any (fun kv => decide (kv.1 = k)) then
    m.map (fun kv => if kv.1 = k then (k, v) else kv)
  else
    m ++ [(k, v)]

/-- `HashMap::get`. -/
def mapGet (k : ExactKey) (m : List (ExactKey × Address)) : Option Address :=
  (m.find? (fun kv => decide (kv.1 = k))).map (fun kv => kv.2)

/-- `ProxyRule` from `proxy_manage.rs`. -/
structure ProxyRule where
  pattern : AddressPattern
  target : Address

/-- One LRU cache entry: URI string key to memoized lookup result
(`None` results are cached too). -/
abbrev CacheEntry := String × Option Address

/-- `LruCache::get`: on a hit, return the value and move the entry to
the front (most-recently-used first). -/
def lruGet (key : String) (c : List CacheEntry) :
    Option (Option Address) × List CacheEntry :=
  match c.find? (fun kv => decide (kv.1 = key)) with
  | some kv => (some kv.2, (key, kv.2) :: c.eraseP (fun e => decide (e.1 = key)))
  | none => (none, c)

/-- `LruCache::put`: insert at the front, replacing an existing entry for
the key, and evict the least-recently-used entry when over capacity. -/
def lruPut (key : String) (v : Option Address) (cap : Nat)
    (c : List CacheEntry) : List CacheEntry :=
  ((key, v) :: c.eraseP (fun e => decide (e.1 = key))).take cap

/-- Does the cache hold an entry for this key? -/
def cacheHas (c : List CacheEntry) (key : String) : Bool :=
  c.any (fun kv => decide (kv.1 = key))

/-- Read a cached value without touching recency. -/
def lruPeek (c : List CacheEntry) (key : String) : Option (Option Address) :=
  (c.find? (fun kv => decide (kv.1 = key))).map (fun kv => kv.2)

/-- `ProxyManager` from `proxy_manage.rs`: exact index, ordered pattern
list, LRU cache (with its fixed capacity) and statistics counters. -/
structure ProxyManager where
  exact_rules : List (ExactKey × Address)
  pattern_rules : List ProxyRule
  cache : List CacheEntry
  cacheCap : Nat
  stats : ProxyStats

/-- `ProxyManager::from_config`: the cache capacity must be non-zero;
rules and cache start from the configured (by default empty) state. -/
def ProxyManager.from_config (cache_size : Nat)
    (exact : List (ExactKey × Address)) (pats : List ProxyRule) :
    Option ProxyManager :=
  if cache_size = 0 then none
  else some ⟨exact, pats, [], cache_size, ProxyStats.zero⟩

/-- `ProxyManager::add_rule`: classify the rule into the exact index or
the pattern list.  Note the early `return` in the exact branch: the
cache-clearing statement at the end of the function runs only when the
rule goes to the pattern list. -/
def ProxyManager.add_rule (m : ProxyManager) (pattern : AddressPattern)
    (target : Address) : ProxyManager :=
  let is_exact :=
    (match pattern.pattern_type.host with
     | .Exact _ => true
     | _ => false) &&
    (match pattern.pattern_type.path with
     | none => true
     | some p => match p with | .Exact _ => true | _ => false)
  let push_pattern : ProxyManager :=
    { m with pattern_rules := m.pattern_rules ++ [⟨pattern, target⟩],
             cache := [] }
  if is_exact then
    match pattern.pattern_type.host with
    | .Exact host =>
      let path :=
        match pattern.pattern_type.path with
        | some (.Exact path_str) => some path_str
        | _ => none
      let key : ExactKey := ⟨pattern.protocol, host, pattern.port, path⟩
      { m with exact_rules := mapInsert key target m.exact_rules }
    | _ => push_pattern
  else
    push_pattern

/-- `ProxyManager::find_target_for_address_uncached`, threading the
statistics counters explicitly. -/
def ProxyManager.find_target_for_address_uncached (m : ProxyManager)
    (address : Address) (s : ProxyStats) : Option Address × ProxyStats :=
  let key := ExactKey.from_address address
  match mapGet key m.exact_rules with
  | some target => (some target, s.incExact)
  | none =>
    match m.pattern_rules.find? (fun rule => rule.pattern.matches address) with
    | some rule => (some rule.target, s.incPattern)
    | none => (none, s.incMiss)

/-- `ProxyManager::find_target`: cached lookup.  Returns the result and
the manager with its updated cache and counters. -/
def ProxyManager.find_target (m : ProxyManager) (uri : Uri) :
    Option Address × ProxyManager :=
  let s1 := m.stats.incTotal
  let uri_str := uri.toStr
  match lruGet uri_str m.cache with
  | (some cached, c1) => (cached, { m with cache := c1, stats := s1.incCache })
  | (none, c0) =>
    match Address.from_uri uri with
    | none => (none, { m with cache := c0, stats := s1 })
    | some address =>
      let (result, s2) := m.find_target_for_address_uncached address s1
      (result, { m with cache := lruPut uri_str result m.cacheCap c0,
                        stats := s2 })

/-- `ProxyManager::find_target_with_match_info`: uncached lookup that
also reports the matched path prefix. -/
def ProxyManager.find_target_with_match_info (m : ProxyManager) (uri : Uri) :
    Option MatchResult × ProxyManager :=
  let s1 := m.stats.incTotal
  match Address.from_uri uri with
  | none => (none, { m with stats := s1 })
  | some address =>
    let key := ExactKey.from_address address
    match mapGet key m.exact_rules with
    | some target =>
      (some ⟨target, key.path⟩, { m with stats := s1.incExact })
    | none =>
      match m.pattern_rules.find? (fun rule => rule.pattern.matches address) with
      | some rule =>
        let matched :=
          match rule.pattern.pattern_type.path with
          | some (.Exact p) => some p
          | some (.Wildcard p) => some (trimTrailChar '*' p)
          | some (.Regex _ _) => none
          | none => none
        (some ⟨rule.target, matched⟩, { m with stats := s1.incPattern })
      | none => (none, { m with stats := s1.incMiss })

/-- `ProxyManager::exact_rule_count`. -/
def ProxyManager.exact_rule_count (m : ProxyManager) : Nat :=
  m.exact_rules.length

/-- `ProxyManager::pattern_rule_count`. -/
def ProxyManager.pattern_rule_count (m : ProxyManager) : Nat :=
  m.pattern_rules.length

/-- `ProxyManager::clear`: drop every rule, empty the cache and reset
the statistics (via `ProxyStats::reset`). -/
def ProxyManager.clear (m : ProxyManager) : ProxyManager :=
  { m with exact_rules := []
           pattern_rules := []
           cache := []
           stats := ProxyStats.zero }

/-- `ProxyManager::clear_cache`. -/
def ProxyManager.clear_cache (m : ProxyManager) : ProxyManager :=
  { m with cache := [] }

/-- The classification test of `add_rule` as a standalone predicate:
host matcher Exact and path matcher Exact-or-absent. -/
def AddressPattern.isExactShape (pattern : AddressPattern) : Bool :=
  (match pattern.pattern_type.host with
   | .Exact _ => true
   | _ => false) &&
  (match pattern.pattern_type.path with
   | none => true
   | some p => match p with | .Exact _ => true | _ => false)

/-- The `ExactKey` an exact-shaped pattern is stored under (`none` for
pattern-shaped rules), mirroring the key extraction in `add_rule`. -/
def AddressPattern.exactShapeKey (pattern : AddressPattern) : Option ExactKey :=
  match pattern.pattern_type.host, pattern.pattern_type.path with
  | .Exact host, none => some ⟨pattern.protocol, host, pattern.port, none⟩
  | .Exact host, some (.Exact p) => some ⟨pattern.protocol, host, pattern.port, some p⟩
  | _, _ => none

/-! ### Helper lemmas -/

theorem strMk_data (s : String) : String.mk s.data = s := rfl

theorem isPrefixOf_append_self (l r : List Char) :
    l.isPrefixOf (l ++ r) = true :=
  List.isPrefixOf_iff_prefix.mpr (List.prefix_append l r)

theorem strStartsWith_append (p r : String) :
    strStartsWith (p ++ r) p = true := by
  unfold strStartsWith
  rw [String.data_append]
  exact isPrefixOf_append_self p.data r.data

theorem strDropLen_append (p r : String) :
    strDropLen (p ++ r) p.data.length = r := by
  unfold strDropLen
  rw [String.data_append, List.drop_left, strMk_data]

theorem strDropLen_append_len (p r : String) :
    strDropLen (p ++ r) p.length = r :=
  strDropLen_append p r

theorem stripLeadChar_star_append (suf : String) :
    stripLeadChar '*' ("*" ++ suf) = some suf := by
  unfold stripLeadChar
  rw [String.data_append]
  simp [strMk_data]


/-! ### Concrete sample values used by witnesses and counterexamples -/

def targetA : Address := ⟨.http, "backendA", some 3001, none, .preserve⟩

def targetB : Address := ⟨.http, "backendB", some 3000, none, .preserve⟩

def starPat : AddressPattern := ⟨.http, none, ⟨.Wildcard "*", none⟩⟩

def comPat : AddressPattern := ⟨.http, none, ⟨.Wildcard "*.com", none⟩⟩

def exPat : AddressPattern := ⟨.http, none, ⟨.Exact "example.com", some (.Exact "/")⟩⟩

def exPatKey : ExactKey := ⟨.http, "example.com", none, some "/"⟩

def reqUri : Uri := ⟨some "http", some "example.com", none, some "/"⟩

def reqAddr : Address := ⟨.http, "example.com", none, some "/", .preserve⟩

def noHostUri : Uri := ⟨some "http", none, none, some "/x"⟩

def mgr0 : ProxyManager := ⟨[], [], [], 1000, ProxyStats.zero⟩

theorem mgr0_from_config : ProxyManager.from_config 1000 [] [] = some mgr0 := rfl

def replTarget : Address := ⟨.http, "b", some 3000, some "/api/v2", .replace⟩

def replUri : Uri := ⟨some "http", some "example.com", none, some "/api/v1/users"⟩

def presTarget : Address := ⟨.http, "example.com", none, none, .preserve⟩

def presUri : Uri := ⟨some "http", some "example.com", none, some "/x?q=1"⟩

/-! ### Claims -/

/-- Claim C10: `ProxyManager::clear` removes every exact and pattern rule,
empties the LRU cache, and resets all five statistics counters to zero. -/
theorem clear_resets_everything (m : ProxyManager) :
    m.clear.exact_rules = [] ∧ m.clear.pattern_rules = [] ∧ m.clear.cache = [] ∧
    m.clear.stats.total_lookups = 0 ∧ m.clear.stats.cache_hits = 0 ∧
    m.clear.stats.exact_hits = 0 ∧ m.clear.stats.pattern_hits = 0 ∧
    m.clear.stats.misses = 0 :=
  ⟨rfl, rfl, rfl, rfl, rfl, rfl, rfl, rfl⟩

/-- Claim C9: `PatternMatcher.matches` on a Wildcard pattern implements
exactly three shapes: a leading-star pattern matches iff the value ends
with the remainder; otherwise a trailing-star pattern matches iff the
value starts with the remainder; and a pattern with only an interior star
matches iff the value equals the whole pattern string. -/
theorem wildcard_matches_shapes :
    (∀ suf v, PatternMatcher.matches (.Wildcard ("*" ++ suf)) v = strEndsWith v suf) ∧
    (∀ pre v, startsWithChar pre '*' = false →
      PatternMatcher.matches (.Wildcard (pre ++ "*")) v = strStartsWith v pre) ∧
    (∀ p v, containsChar p '*' = true → startsWithChar p '*' = false →
      endsWithChar p '*' = false →
      PatternMatcher.matches (.Wildcard p) v = decide (v = p)) := by
  refine ⟨?_, ?_, ?_⟩
  · intro suf v
    simp [PatternMatcher.matches, stripLeadChar_star_append]
  · intro pre v h
    rcases hd : pre.data with _ | ⟨c, rest⟩
    · have hpre : pre = "" := by
        cases pre
        simp only [String.data] at hd
        simp [hd]
      subst hpre
      have hstar : ("" ++ "*" : String) = "*" := by decide
      rw [hstar]
      have h1 : stripLeadChar '*' ("*" : String) = some "" := by decide
      have hnil : ("" : String).data = [] := rfl
      have h2 : strEndsWith v "" = true := by
        simp [strEndsWith, hnil, List.isSuffixOf, List.isPrefixOf]
      have h3 : strStartsWith v "" = true := by
        simp [strStartsWith, hnil, List.isPrefixOf]
      simp [PatternMatcher.matches, h1, h2, h3]
    · have hc : (c = '*') = False := by
        simpa [startsWithChar, hd] using h
      have hpd : (pre ++ "*").data = c :: (rest ++ ['*']) := by
        rw [String.data_append, hd]
        rfl
      have hlead : stripLeadChar '*' (pre ++ "*") = none := by
        simp [stripLeadChar, hpd, hc]
      have hrev : (pre ++ "*").data.reverse = '*' :: (rest.reverse ++ [c]) := by
        rw [hpd]
        simp
      have hpre : pre = ⟨c :: rest⟩ := by
        cases pre
        simp only [String.data] at hd
        simp [hd]
      have htrail : stripTrailChar '*' (pre ++ "*") = some pre := by
        simp [stripTrailChar, hrev, hpre]
      simp [PatternMatcher.matches, hlead, htrail]
  · intro p v _ hstart hend
    rcases hd : p.data with _ | ⟨c, rest⟩
    · have hlead : stripLeadChar '*' p = none := by simp [stripLeadChar, hd]
      have htrail : stripTrailChar '*' p = none := by simp [stripTrailChar, hd]
      simp [PatternMatcher.matches, hlead, htrail]
    · have hc : (c = '*') = False := by
        simpa [startsWithChar, hd] using hstart
      have hlead : stripLeadChar '*' p = none := by simp [stripLeadChar, hd, hc]
      rcases hr : p.data.reverse with _ | ⟨d, rr⟩
      · exfalso
        rw [hd] at hr
        simp at hr
      · have hdne : (d = '*') = False := by
          simpa [endsWithChar, hr] using hend
        have htrail : stripTrailChar '*' p = none := by
          simp [stripTrailChar, hr, hdne]
        simp [PatternMatcher.matches, hlead, htrail]

/-- Witness for C9 at concrete inputs (trailing-star and interior-star
shapes, whose statements carry hypotheses). -/
theorem wildcard_matches_shapes_witness :
    startsWithChar "api" '*' = false ∧
    PatternMatcher.matches (.Wildcard ("api" ++ "*")) "api/v1"
      = strStartsWith "api/v1" "api" :=
  ⟨by decide, wildcard_matches_shapes.2.1 "api" "api/v1" (by decide)⟩

/-- Claim C8: under Preserve the rewritten URI keeps the original
path-and-query, and with a target equal to the request's own
scheme/host/port the rewrite is the identity. -/
theorem rewrite_preserve_identity (a : Address) (u : Uri) (mp : Option String)
    (pq : String)
    (hmode : a.path_transform_mode = .preserve)
    (hpq : u.pathAndQuery = some pq) :
    (a.to_uri_with_rewrite u mp).pathAndQuery = some pq ∧
    (u.scheme = some a.protocol.schemeStr → u.host = some a.host →
      u.port = a.port → a.to_uri_with_rewrite u mp = u) := by
  constructor
  · simp [Address.to_uri_with_rewrite, hmode, hpq]
  · intro hs hh hp
    cases u
    simp_all [Address.to_uri_with_rewrite]

/-- Witness for C8: a Preserve target with the request's own scheme, host
and port maps the request URI to itself. -/
theorem rewrite_preserve_identity_witness :
    presTarget.path_transform_mode = .preserve ∧
    presTarget.to_uri_with_rewrite presUri none = presUri :=
  ⟨rfl, (rewrite_preserve_identity presTarget presUri none "/x?q=1" rfl rfl).2
          rfl rfl rfl⟩

/-- Claim C7: under Replace with target path `tp` and matched prefix `P`,
let `Pc` be `P` with trailing stars then trailing slashes stripped; when
the original path is `Pc ++ rest` the rewritten path-and-query is `tp`
(trailing slashes stripped) followed by `rest`; when the original path
does not start with `Pc`, or `tp` or `P` is unset, the original
path-and-query is preserved. -/
theorem rewrite_replace_spec (a : Address) (u : Uri) (orig P : String)
    (hmode : a.path_transform_mode = .replace)
    (hpq : u.pathAndQuery = some orig) :
    (∀ tp, a.path = some tp →
      ((∀ rest, orig = trimTrailChar '/' (trimTrailChar '*' P) ++ rest →
         (a.to_uri_with_rewrite u (some P)).pathAndQuery
           = some (trimTrailChar '/' tp ++ rest)) ∧
       (strStartsWith orig (trimTrailChar '/' (trimTrailChar '*' P)) = false →
         (a.to_uri_with_rewrite u (some P)).pathAndQuery = some orig))) ∧
    (a.path = none →
      (a.to_uri_with_rewrite u (some P)).pathAndQuery = some orig) ∧
    (a.to_uri_with_rewrite u none).pathAndQuery = some orig := by
  refine ⟨?_, ?_, ?_⟩
  · intro tp hpath
    constructor
    · intro rest hsplit
      simp [Address.to_uri_with_rewrite, hmode, hpq, hpath, hsplit,
            strStartsWith_append, strDropLen_append, strDropLen_append_len]
    · intro hns
      simp [Address.to_uri_with_rewrite, hmode, hpq, hpath, hns]
  · intro hpath
    simp [Address.to_uri_with_rewrite, hmode, hpq, hpath]
  · cases hpath : a.path <;>
      simp [Address.to_uri_with_rewrite, hmode, hpq, hpath]

/-- Witness for C7 on the spec's scenario: rule path `/api/v1` rewritten
to `/api/v2` keeps the `/users` remainder. -/
theorem rewrite_replace_spec_witness :
    replTarget.path_transform_mode = .replace ∧ replTarget.path = some "/api/v2" ∧
    ("/api/v1/users" : String)
      = trimTrailChar '/' (trimTrailChar '*' "/api/v1") ++ "/users" ∧
    (replTarget.to_uri_with_rewrite replUri (some "/api/v1")).pathAndQuery
      = some (trimTrailChar '/' "/api/v2" ++ "/users") :=
  ⟨rfl, rfl, by decide,
   ((rewrite_replace_spec replTarget replUri "/api/v1/users" "/api/v1" rfl
       rfl).1 "/api/v2" rfl).1 "/users" (by decide)⟩

/-! ### Manager lemmas -/

theorem add_rule_exact_eq (m : ProxyManager) (pat : AddressPattern) (t : Address)
    (k : ExactKey) (h : pat.exactShapeKey = some k) :
    m.add_rule pat t = { m with exact_rules := mapInsert k t m.exact_rules } := by
  rcases pat with ⟨proto, port, ⟨phost, ppath⟩⟩
  cases phost with
  | Exact hstr =>
    cases ppath with
    | none =>
      simp [AddressPattern.exactShapeKey] at h
      subst h
      rfl
    | some pm =>
      cases pm with
      | Exact ps =>
        simp [AddressPattern.exactShapeKey] at h
        subst h
        rfl
      | Wildcard ps => simp [AddressPattern.exactShapeKey] at h
      | Regex ps f => simp [AddressPattern.exactShapeKey] at h
  | Wildcard s => simp [AddressPattern.exactShapeKey] at h
  | Regex s f => simp [AddressPattern.exactShapeKey] at h

theorem add_rule_pattern_eq (m : ProxyManager) (pat : AddressPattern) (t : Address)
    (h : pat.exactShapeKey = none) :
    m.add_rule pat t =
      { m with pattern_rules := m.pattern_rules ++ [⟨pat, t⟩], cache := [] } := by
  rcases pat with ⟨proto, port, ⟨phost, ppath⟩⟩
  cases phost with
  | Exact hstr =>
    cases ppath with
    | none => simp [AddressPattern.exactShapeKey] at h
    | some pm =>
      cases pm with
      | Exact ps => simp [AddressPattern.exactShapeKey] at h
      | Wildcard ps => rfl
      | Regex ps f => rfl
  | Wildcard s => rfl
  | Regex s f => rfl

theorem mapInsert_length (k : ExactKey) (v : Address)
    (m : List (ExactKey × Address)) :
    (mapInsert k v m).length =
      if m.any (fun kv => decide (kv.1 = k)) then m.length else m.length + 1 := by
  unfold mapInsert
  split <;> simp

theorem lruGet_of_not_cached (key : String) (c : List CacheEntry)
    (h : cacheHas c key = false) : lruGet key c = (none, c) := by
  unfold lruGet
  have hfind : c.find? (fun kv => decide (kv.1 = key)) = none :=
    List.find?_eq_none.mpr (by simpa [cacheHas, List.any_eq_false] using h)
  rw [hfind]

theorem lruGet_cons_self (key : String) (v : Option Address) (c : List CacheEntry) :
    lruGet key ((key, v) :: c)
      = (some v,
         (key, v) :: ((key, v) :: c).eraseP (fun e => decide (e.1 = key))) := by
  unfold lruGet
  rw [List.find?_cons_of_pos _ (by simp)]

theorem lruPeek_cons_self (key : String) (v : Option Address) (c : List CacheEntry) :
    lruPeek ((key, v) :: c) key = some v := by
  unfold lruPeek
  rw [List.find?_cons_of_pos _ (by simp)]
  rfl

/-! ### Scenario states for C1 and C4 -/

/-- State after one negative lookup of `reqUri` on the fresh manager:
the miss is cached. -/
def c1Mgr1 : ProxyManager := (mgr0.find_target reqUri).2

/-- State after then adding an exact rule matching `reqUri`. -/
def c1Mgr2 : ProxyManager := c1Mgr1.add_rule exPat targetA

/-- Claim C1: after a successful `add_rule` classified as an exact rule,
the LRU cache is NOT empty: the early `return` in the exact branch of
`add_rule` skips the cache clear, so the previously cached negative
lookup for `reqUri` survives the insertion. -/
theorem add_rule_exact_keeps_stale_cache :
    c1Mgr1.cache = [(reqUri.toStr, none)] ∧
    c1Mgr2.cache = [(reqUri.toStr, none)] ∧
    c1Mgr2.cache ≠ [] :=
  ⟨by decide, by decide, by decide⟩

def c4Mgr1 : ProxyManager := mgr0.add_rule starPat targetB

def c4Mgr2 : ProxyManager := (c4Mgr1.find_target reqUri).2

def c4Mgr3 : ProxyManager := c4Mgr2.add_rule exPat targetA

/-- Claim C4: with both an exact rule (to `targetA`) and a pattern rule
(to `targetB`) installed and matching `reqAddr`, `find_target` answers
the pattern rule's target from the stale cache entry left over from a
lookup made before the exact rule was inserted — exact precedence is
violated when lookups interleave with an exact insertion, because the
exact branch of `add_rule` does not invalidate the cache. -/
theorem stale_cache_breaks_exact_precedence :
    Address.from_uri reqUri = some reqAddr ∧
    mapGet (ExactKey.from_address reqAddr) c4Mgr3.exact_rules = some targetA ∧
    c4Mgr3.pattern_rules.map ProxyRule.target = [targetB] ∧
    c4Mgr3.pattern_rules.all (fun r => r.pattern.matches reqAddr) = true ∧
    (c4Mgr3.find_target reqUri).1 = some targetB ∧
    targetB ≠ targetA :=
  ⟨by decide, by decide, by decide, by decide, by decide, by decide⟩

/-- Counterexample to C2 as stated: adding an exact rule whose `ExactKey`
is already present replaces the stored target and leaves
`exact_rule_count` unchanged instead of incrementing it. -/
theorem add_rule_same_key_no_increment :
    (mgr0.add_rule exPat targetA).exact_rule_count = 1 ∧
    ((mgr0.add_rule exPat targetA).add_rule exPat targetB).exact_rule_count = 1 :=
  ⟨rfl, rfl⟩

/-- Claim C2 (amended): a rule whose host matcher is Exact and whose path
matcher is Exact-or-absent leaves `pattern_rule_count` unchanged and
increments `exact_rule_count` by one exactly when no rule with the same
`ExactKey` is present (otherwise it replaces that rule, leaving the count
unchanged); any other shape leaves `exact_rule_count` unchanged and
always increments `pattern_rule_count` by one. -/
theorem add_rule_classification_counts (m : ProxyManager)
    (pat : AddressPattern) (t : Address) :
    (∀ k, pat.exactShapeKey = some k →
      ((m.add_rule pat t).pattern_rule_count = m.pattern_rule_count ∧
       (m.exact_rules.any (fun kv => decide (kv.1 = k)) = false →
         (m.add_rule pat t).exact_rule_count = m.exact_rule_count + 1) ∧
       (m.exact_rules.any (fun kv => decide (kv.1 = k)) = true →
         (m.add_rule pat t).exact_rule_count = m.exact_rule_count))) ∧
    (pat.exactShapeKey = none →
      ((m.add_rule pat t).exact_rule_count = m.exact_rule_count ∧
       (m.add_rule pat t).pattern_rule_count = m.pattern_rule_count + 1)) := by
  constructor
  · intro k hk
    rw [add_rule_exact_eq m pat t k hk]
    refine ⟨rfl, ?_, ?_⟩
    · intro hnot
      simp [ProxyManager.exact_rule_count, mapInsert_length, hnot]
    · intro hyes
      simp [ProxyManager.exact_rule_count, mapInsert_length, hyes]
  · intro hnone
    rw [add_rule_pattern_eq m pat t hnone]
    exact ⟨rfl, by simp [ProxyManager.pattern_rule_count]⟩

/-- Witness for C2 (amended) at a concrete input: a fresh exact key
increments the exact count by one. -/
theorem add_rule_classification_counts_witness :
    AddressPattern.exactShapeKey exPat = some exPatKey ∧
    mgr0.exact_rules.any (fun kv => decide (kv.1 = exPatKey)) = false ∧
    (mgr0.add_rule exPat targetA).exact_rule_count = mgr0.exact_rule_count + 1 :=
  ⟨rfl, rfl,
   ((add_rule_classification_counts mgr0 exPat targetA).1 exPatKey rfl).2.1 rfl⟩

/-- Counterexample to C3 as stated: on a URI with no host, `find_target`
and `find_target_with_match_info` return none and increment only the
total-lookups counter — the miss counter stays unchanged. -/
theorem unparseable_uri_miss_not_counted :
    (mgr0.find_target noHostUri).1 = none ∧
    ((mgr0.find_target noHostUri).2).stats.total_lookups = 1 ∧
    ((mgr0.find_target noHostUri).2).stats.misses = 0 ∧
    (mgr0.find_target_with_match_info noHostUri).1 = none ∧
    ((mgr0.find_target_with_match_info noHostUri).2).stats.misses = 0 :=
  ⟨by decide, by decide, by decide, by decide, by decide⟩

/-- Claim C3 (amended): for a URI whose host or scheme cannot be parsed
into an `Address`, both lookups return none with only the total-lookups
counter incremented; the miss counter, the other counters and the cache
are unchanged (assuming the URI string is not an existing cache key, as
is the case for every string that was cached by a successful parse). -/
theorem find_target_unparseable (m : ProxyManager) (u : Uri)
    (hp : Address.from_uri u = none)
    (hc : cacheHas m.cache u.toStr = false) :
    m.find_target u = (none, { m with stats := m.stats.incTotal }) ∧
    m.find_target_with_match_info u
      = (none, { m with stats := m.stats.incTotal }) := by
  constructor
  · simp [ProxyManager.find_target, lruGet_of_not_cached _ _ hc, hp]
  · simp [ProxyManager.find_target_with_match_info, hp]

/-- Witness for C3 (amended) at a concrete input. -/
theorem find_target_unparseable_witness :
    Address.from_uri noHostUri = none ∧
    cacheHas mgr0.cache noHostUri.toStr = false ∧
    mgr0.find_target noHostUri = (none, { mgr0 with stats := mgr0.stats.incTotal }) :=
  ⟨by decide, by decide,
   (find_target_unparseable mgr0 noHostUri (by decide) (by decide)).1⟩

/-- Claim C5: when two pattern-shaped rules both match an address, the
rule inserted earlier wins: `add_rule` appends pattern rules at the tail
and both lookups scan the list front to back, returning the first match
(stated for a manager whose exact index misses the address and whose
existing pattern rules do not match it). -/
theorem pattern_rules_insertion_order (m : ProxyManager)
    (pat1 pat2 : AddressPattern) (t1 t2 : Address) (addr : Address) (u : Uri)
    (h1 : pat1.exactShapeKey = none) (h2 : pat2.exactShapeKey = none)
    (hm1 : pat1.matches addr = true) (hm2 : pat2.matches addr = true)
    (hexact : mapGet (ExactKey.from_address addr) m.exact_rules = none)
    (hprior : ∀ r ∈ m.pattern_rules, r.pattern.matches addr = false)
    (hu : Address.from_uri u = some addr) :
    (((m.add_rule pat1 t1).add_rule pat2 t2).find_target u).1 = some t1 ∧
    ((((m.add_rule pat1 t1).add_rule pat2 t2).find_target_with_match_info u).1).map
        MatchResult.target = some t1 := by
  rw [add_rule_pattern_eq _ _ _ h1, add_rule_pattern_eq _ _ _ h2]
  have hnone : m.pattern_rules.find? (fun rule => rule.pattern.matches addr) = none :=
    List.find?_eq_none.mpr (by intro x hx; simp [hprior x hx])
  have htwo : List.find? (fun rule => rule.pattern.matches addr)
      [(⟨pat1, t1⟩ : ProxyRule), ⟨pat2, t2⟩] = some ⟨pat1, t1⟩ :=
    List.find?_cons_of_pos _ (by simpa using hm1)
  constructor
  · simp [ProxyManager.find_target, lruGet, hu,
          ProxyManager.find_target_for_address_uncached, hexact, hnone, htwo]
  · simp [ProxyManager.find_target_with_match_info, hu, hexact, hnone, htwo]

/-- Witness for C5 at concrete inputs: two wildcard host rules both match
`reqAddr`; the earlier one (to `targetB`) wins in both lookups. -/
theorem pattern_rules_insertion_order_witness :
    AddressPattern.exactShapeKey starPat = none ∧
    AddressPattern.exactShapeKey comPat = none ∧
    AddressPattern.matches starPat reqAddr = true ∧
    AddressPattern.matches comPat reqAddr = true ∧
    (((mgr0.add_rule starPat targetB).add_rule comPat targetA).find_target
        reqUri).1 = some targetB :=
  ⟨rfl, rfl, by decide, by decide,
   (pattern_rules_insertion_order mgr0 starPat comPat targetB targetA reqAddr
      reqUri rfl rfl (by decide) (by decide) (by decide) (by simp [mgr0])
      (by decide)).1⟩

/-- Claim C6: with no intervening `add_rule` or `clear`, two consecutive
`find_target` calls for the same URI return equal results; moreover on a
cache miss for a parseable URI the computed result — including a negative
one — is stored in the cache under the URI string (the LRU capacity is at
least one, as `from_config` guarantees). -/
theorem find_target_consecutive_equal (m : ProxyManager) (u : Uri)
    (hcap : 1 ≤ m.cacheCap) :
    (((m.find_target u).2).find_target u).1 = (m.find_target u).1 ∧
    (cacheHas m.cache u.toStr = false →
      ∀ a, Address.from_uri u = some a →
        lruPeek ((m.find_target u).2).cache u.toStr = some ((m.find_target u).1)) := by
  rcases hfind : m.cache.find? (fun kv => decide (kv.1 = u.toStr)) with _ | kv
  · have hget : lruGet u.toStr m.cache = (none, m.cache) := by
      unfold lruGet
      rw [hfind]
    rcases hu : Address.from_uri u with _ | a
    · have h1 : m.find_target u = (none, { m with stats := m.stats.incTotal }) := by
        simp [ProxyManager.find_target, hget, hu]
      refine ⟨?_, ?_⟩
      · rw [h1]
        simp [ProxyManager.find_target, hget, hu]
      · intro _ a ha
        exact Option.noConfusion ha
    · rcases hun : m.find_target_for_address_uncached a m.stats.incTotal with ⟨r, s2⟩
      have h1 : m.find_target u
          = (r, { m with cache := lruPut u.toStr r m.cacheCap m.cache,
                         stats := s2 }) := by
        simp [ProxyManager.find_target, hget, hu, hun]
      obtain ⟨n, hn⟩ : ∃ n, m.cacheCap = n + 1 := ⟨m.cacheCap - 1, by omega⟩
      have hput : lruPut u.toStr r m.cacheCap m.cache
          = (u.toStr, r) ::
              (m.cache.eraseP (fun e => decide (e.1 = u.toStr))).take n := by
        unfold lruPut
        rw [hn, List.take_succ_cons]
      refine ⟨?_, ?_⟩
      · rw [h1]
        simp [ProxyManager.find_target, hput, lruGet_cons_self]
      · intro _ a2 ha2
        rw [h1]
        simp [hput, lruPeek_cons_self]
  · have hget : lruGet u.toStr m.cache
        = (some kv.2, (u.toStr, kv.2) ::
            m.cache.eraseP (fun e => decide (e.1 = u.toStr))) := by
      unfold lruGet
      rw [hfind]
    have h1 : m.find_target u
        = (kv.2, { m with
            cache := ((u.toStr, kv.2) :: m.cache.eraseP (fun e => decide (e.1 = u.toStr))),
            stats := (m.stats.incTotal.incCache) }) := by
      simp [ProxyManager.find_target, hget]
    refine ⟨?_, ?_⟩
    · rw [h1]
      simp [ProxyManager.find_target, lruGet_cons_self]
    · intro hc a ha
      exfalso
      have hnone : m.cache.find? (fun kv => decide (kv.1 = u.toStr)) = none :=
        List.find?_eq_none.mpr (by simpa [cacheHas, List.any_eq_false] using hc)
      rw [hfind] at hnone
      exact Option.noConfusion hnone

/-- Witness for C6 at concrete inputs. -/
theorem find_target_consecutive_equal_witness :
    1 ≤ mgr0.cacheCap ∧
    (((mgr0.find_target reqUri).2).find_target reqUri).1
      = (mgr0.find_target reqUri).1 :=
  ⟨by decide, (find_target_consecutive_equal mgr0 reqUri (by decide)).1⟩
